import Mathlib

/-!
# Verification of the git-contrib commit-aggregation and calendar-layout engine

Shallow embedding of the core of the `git-contrib` repository
(`pkg/stats`, `pkg/commands`, `cmd/stats.go`) together with a model of the
parts of Go's `time` library that the code uses.  Times are modelled at
day granularity (a day number counted from 1970-01-01) plus a
second-of-day and a location tag; all Gregorian-calendar arithmetic
(`Date`, `time.Date`, `AddDate`, `Weekday`) is modelled by executable
civil-calendar conversions.
-/

set_option maxRecDepth 10000

namespace GitContrib

/-! ## Gregorian calendar model (Go `time` library)

A calendar day is an `Int`: the number of days since 1970-01-01.
`toCivil` and `ofCivil` convert between day numbers and (year, month, day)
civil triples, using the standard era decomposition: eras of 146097 days
(400 Gregorian years), years counted March-first inside an era so that the
leap day is the last day of a year-of-era. -/

/-- Cumulative number of days before the March-based month `mp`
(0 = March, 1 = April, …, 11 = February); `12` acts as an end-of-year
sentinel (366). -/
def monthStart (mp : Nat) : Nat :=
  if mp = 0 then 0
  else if mp = 1 then 31
  else if mp = 2 then 61
  else if mp = 3 then 92
  else if mp = 4 then 122
  else if mp = 5 then 153
  else if mp = 6 then 184
  else if mp = 7 then 214
  else if mp = 8 then 245
  else if mp = 9 then 275
  else if mp = 10 then 306
  else if mp = 11 then 337
  else 366

/-- Day-of-era on which the year-of-era `yoe` starts (March-based years,
`0 ≤ yoe ≤ 400`); `soyE 400 = 146097` is the length of an era. -/
def soyE (yoe : Nat) : Nat := 365 * yoe + yoe / 4 - yoe / 100 + yoe / 400

/-- Recover the year-of-era from a day-of-era by estimating `doe / 365`
and correcting downward when the estimate overshoots. -/
def yoeFromDoe (doe : Nat) : Nat :=
  let e := min (doe / 365) 399
  if doe < soyE e then e - 1 else e

/-- Recover the March-based month from a day-of-year (`0 ≤ doy ≤ 365`)
by scanning the cumulative month table. -/
def mpFromDoy (doy : Nat) : Nat :=
  if doy < 31 then 0
  else if doy < 61 then 1
  else if doy < 92 then 2
  else if doy < 122 then 3
  else if doy < 153 then 4
  else if doy < 184 then 5
  else if doy < 214 then 6
  else if doy < 245 then 7
  else if doy < 275 then 8
  else if doy < 306 then 9
  else if doy < 337 then 10
  else 11

/-- Civil triple (year, month 1..12, day-of-month 1..31) of a day number
(days since 1970-01-01).  Models `t.Date()` of Go's `time` library. -/
def toCivil (z : Int) : Int × Nat × Nat :=
  let zsh := z + 719468
  let era := zsh / 146097
  let doe := (zsh % 146097).toNat
  let yoe := yoeFromDoe doe
  let doy := doe - soyE yoe
  let mp := mpFromDoy doy
  let d := doy - monthStart mp + 1
  let m := if mp < 10 then mp + 3 else mp - 9
  (era * 400 + (yoe : Int) + (if m ≤ 2 then 1 else 0), m, d)

/-- Day number of a civil date.  The day-of-month argument is an `Int` and
may lie outside the month: like Go's `time.Date`, the date is normalized
by linear spill into adjacent months. -/
def ofCivil (y : Int) (m : Nat) (d : Int) : Int :=
  let ysh := if m ≤ 2 then y - 1 else y
  let era := ysh / 400
  let yoe := (ysh % 400).toNat
  let mp := if 3 ≤ m then m - 3 else m + 9
  let doe : Int := (soyE yoe : Int) + (monthStart mp : Int) + (d - 1)
  era * 146097 + doe - 719468

/-- Weekday of a day number, Sunday = 0 … Saturday = 6 (1970-01-01 was a
Thursday).  Models `t.Weekday()`. -/
def weekday (z : Int) : Int := (z + 4) % 7

/-- Models Go's `t.AddDate(years, months, days)`: months are normalized
with floor semantics into the year, then the (possibly out-of-range)
day-of-month spills linearly. -/
def addDate (z : Int) (years months days : Int) : Int :=
  let c := toCivil z
  let mm := (c.2.1 : Int) + months - 1
  let y' := c.1 + years + mm / 12
  let m' := (mm % 12).toNat + 1
  ofCivil y' m' ((c.2.2 : Int) + days)

/-! ### Calendar lemmas: the conversions are mutually inverse -/

/-- Bracketing of the year-of-era extraction: for every day-of-era in an
era, the extracted year-of-era starts at or before it and the next year
starts after it. -/
theorem yoeFromDoe_bracket (doe : Nat) (h : doe < 146097) :
    yoeFromDoe doe ≤ 399 ∧ soyE (yoeFromDoe doe) ≤ doe ∧
      doe < soyE (yoeFromDoe doe + 1) := by
  have hdiv : 365 * (doe / 365) ≤ doe ∧ doe < 365 * (doe / 365) + 365 := by omega
  unfold yoeFromDoe
  by_cases hcap : doe / 365 ≤ 399
  · rw [min_eq_left hcap]
    by_cases hlt : doe < soyE (doe / 365)
    · rw [if_pos hlt]
      have he1 : 1 ≤ doe / 365 := by
        by_contra h0
        have : doe / 365 = 0 := by omega
        rw [this] at hlt
        simp only [soyE] at hlt
        omega
      have hrw : doe / 365 - 1 + 1 = doe / 365 := by omega
      refine ⟨by omega, ?_, by rw [hrw]; exact hlt⟩
      simp only [soyE] at hlt ⊢
      omega
    · rw [if_neg hlt]
      refine ⟨hcap, by omega, ?_⟩
      have hmono : (doe / 365 + 1) / 100 ≤ (doe / 365 + 1) / 4 :=
        Nat.div_le_div_left (by norm_num) (by norm_num)
      simp only [soyE]
      omega
  · have h400 : doe / 365 = 400 := by omega
    have hge : 146000 ≤ doe := by omega
    rw [h400]
    have hmin : min 400 399 = 399 := by norm_num
    rw [hmin]
    have hsoy399 : soyE 399 = 145731 := by norm_num [soyE]
    have hsoy400 : soyE 400 = 146097 := by norm_num [soyE]
    rw [if_neg (by omega)]
    exact ⟨le_refl _, by omega, by simp only [soyE]; omega⟩

/-- Bracketing of the month extraction over one (possibly leap) year. -/
theorem mpFromDoy_bracket : ∀ doy < 366, mpFromDoy doy ≤ 11 ∧
    monthStart (mpFromDoy doy) ≤ doy ∧ doy < monthStart (mpFromDoy doy + 1) := by
  decide

/-- Round-trip: rebuilding a day number from its civil triple is the
identity. -/
theorem ofCivil_toCivil (z : Int) :
    ofCivil (toCivil z).1 (toCivil z).2.1 ((toCivil z).2.2 : Int) = z := by
  have hdoe : 0 ≤ (z + 719468) % 146097 ∧ (z + 719468) % 146097 < 146097 := by
    constructor <;> omega
  set doe : Nat := ((z + 719468) % 146097).toNat with hdoeDef
  have hdoe146097 : doe < 146097 := by omega
  obtain ⟨hyoe399, hsoyLe, hsoyLt⟩ := yoeFromDoe_bracket doe hdoe146097
  set yoe := yoeFromDoe doe with hyoeDef
  have hdoy366 : doe - soyE yoe < 366 := by
    have : soyE (yoe + 1) ≤ soyE yoe + 366 := by unfold soyE; omega
    omega
  obtain ⟨hmp11, hmsLe, hmsLt⟩ := mpFromDoy_bracket (doe - soyE yoe) hdoy366
  set doy := doe - soyE yoe with hdoyDef
  set mp := mpFromDoy doy with hmpDef
  show ofCivil _ _ _ = z
  unfold ofCivil toCivil
  simp only [← hdoeDef, ← hyoeDef, ← hdoyDef, ← hmpDef]
  by_cases hm : mp < 10
  · -- month 3..12: no year shift
    have h3 : ¬ (mp + 3 ≤ 2) := by omega
    have h3' : 3 ≤ mp + 3 := by omega
    simp only [if_pos hm, if_neg h3, if_pos h3', Nat.add_sub_cancel]
    have hyoeN : ((z + 719468) / 146097 * 400 + (yoe : Int) + 0) % 400 = yoe := by
      omega
    have hyoeD : ((z + 719468) / 146097 * 400 + (yoe : Int) + 0) / 400 =
        (z + 719468) / 146097 := by omega
    rw [hyoeD, hyoeN]
    have : ((yoe : Int)).toNat = yoe := by omega
    rw [this]
    have hcast : ((doy - monthStart mp + 1 : Nat) : Int) = (doy : Int) - monthStart mp + 1 := by
      omega
    rw [hcast]
    have hsoyD : (soyE yoe : Int) + (monthStart mp : Int) +
        ((doy : Int) - monthStart mp + 1 - 1) = soyE yoe + doy := by ring
    rw [hsoyD]
    have : (soyE yoe : Int) + (doy : Int) = (doe : Int) := by omega
    rw [this]
    omega
  · -- month 1..2: year shifted up by one in `toCivil`, back down here
    have h2 : mp - 9 ≤ 2 := by omega
    have h2' : ¬ (3 ≤ mp - 9) := by omega
    simp only [if_neg hm, if_pos h2, if_neg h2']
    have hmp' : mp - 9 + 9 = mp := by omega
    rw [hmp']
    have hyoeN : ((z + 719468) / 146097 * 400 + (yoe : Int) + 1 - 1) % 400 = yoe := by
      omega
    have hyoeD : ((z + 719468) / 146097 * 400 + (yoe : Int) + 1 - 1) / 400 =
        (z + 719468) / 146097 := by omega
    rw [hyoeD, hyoeN]
    have : ((yoe : Int)).toNat = yoe := by omega
    rw [this]
    have hcast : ((doy - monthStart mp + 1 : Nat) : Int) = (doy : Int) - monthStart mp + 1 := by
      omega
    rw [hcast]
    have hsoyD : (soyE yoe : Int) + (monthStart mp : Int) +
        ((doy : Int) - monthStart mp + 1 - 1) = soyE yoe + doy := by ring
    rw [hsoyD]
    have : (soyE yoe : Int) + (doy : Int) = (doe : Int) := by omega
    rw [this]
    omega

/-- The month produced by `toCivil` lies in 1..12 and the day-of-month is
at least 1. -/
theorem toCivil_valid (z : Int) :
    1 ≤ (toCivil z).2.1 ∧ (toCivil z).2.1 ≤ 12 ∧ 1 ≤ (toCivil z).2.2 := by
  have hdoe146097 : (((z + 719468) % 146097).toNat) < 146097 := by omega
  obtain ⟨hyoe399, hsoyLe, hsoyLt⟩ := yoeFromDoe_bracket _ hdoe146097
  have hdoy366 : ((z + 719468) % 146097).toNat - soyE (yoeFromDoe ((z + 719468) % 146097).toNat) < 366 := by
    have : soyE (yoeFromDoe ((z + 719468) % 146097).toNat + 1) ≤
        soyE (yoeFromDoe ((z + 719468) % 146097).toNat) + 366 := by
      unfold soyE; omega
    omega
  obtain ⟨hmp11, hmsLe, hmsLt⟩ := mpFromDoy_bracket _ hdoy366
  unfold toCivil
  dsimp only
  split_ifs <;> omega

/-- Linearity of `ofCivil` in the day-of-month argument. -/
theorem ofCivil_add_days (y : Int) (m : Nat) (d δ : Int) :
    ofCivil y m (d + δ) = ofCivil y m d + δ := by
  unfold ofCivil
  split_ifs <;> ring

/-- Go `AddDate(0, 0, δ)` is plain day addition. -/
theorem addDate_days (z δ : Int) : addDate z 0 0 δ = z + δ := by
  obtain ⟨hm1, hm12, _⟩ := toCivil_valid z
  simp only [addDate]
  have hmm0 : (0 : Int) ≤ ((toCivil z).2.1 : Int) + 0 - 1 := by omega
  have hmm11 : ((toCivil z).2.1 : Int) + 0 - 1 < 12 := by omega
  have hdiv : (((toCivil z).2.1 : Int) + 0 - 1) / 12 = 0 := by omega
  have hmod : (((toCivil z).2.1 : Int) + 0 - 1) % 12 = ((toCivil z).2.1 : Int) - 1 := by
    omega
  rw [hdiv, hmod]
  have hm' : ((((toCivil z).2.1 : Int) - 1).toNat + 1) = (toCivil z).2.1 := by omega
  rw [hm']
  rw [ofCivil_add_days]
  simp only [add_zero]
  rw [ofCivil_toCivil]

/-- Sanity: the epoch day 0 is 1970-01-01, a Thursday; civil conversions
agree with known dates. -/
example : toCivil 0 = (1970, 1, 1) := by decide
example : ofCivil 1970 1 1 = 0 := by decide
example : weekday 0 = 4 := by decide
example : toCivil 19723 = (2024, 1, 1) := by decide
example : toCivil (ofCivil 2024 2 29) = (2024, 2, 29) := by decide
example : toCivil (-1) = (1969, 12, 31) := by decide

/-! ## Go `time.Time` model

A time is a civil day number, a second-of-day, and a location tag.  The
program never mixes locations and performs no cross-timezone arithmetic,
so locations are inert tags.  All durations appearing in the code are
whole numbers of days between midnight-normalized times, so Go's
float-valued `Duration.Hours()` arithmetic is exact and is modelled by
integer day differences. -/

structure GoTime where
  day : Int
  sod : Nat
  loc : String
deriving DecidableEq, Repr

/-- Ordering `t <= u` on Go times (day number, then time within the day). -/
def timeLE (t u : GoTime) : Prop :=
  t.day < u.day ∨ (t.day = u.day ∧ t.sod ≤ u.sod)

/-! ## `pkg/stats` constants (stats.go) -/

def OutOfRange : Int := 99999

def DaysInLastSixMonths : Int := 183

def WeeksInLastSixMonths : Int := 26

def HoursInDay : Nat := 24

def DaysInWeek : Nat := 7

/-! ## Calendar Clock (`pkg/stats`) -/

/-- Models `GetBeginningOfDay`: reads `t.Date()` and rebuilds the time at
00:00:00 in the same location via `time.Date`. -/
def GetBeginningOfDay (t : GoTime) : GoTime :=
  let c := toCivil t.day
  { day := ofCivil c.1 c.2.1 (c.2.2 : Int), sod := 0, loc := t.loc }

/-- Models `CountDaysSinceDate`: normalizes the date and `time.Now()` (passed
here as the explicit ambient `now`) to beginning of day and takes the
difference in days.  Both normalized times are at 00:00:00, so
`int(diff.Hours() / HoursInDay)` is the exact whole-day difference. -/
def CountDaysSinceDate (now : GoTime) (date : GoTime) : Int :=
  let d := GetBeginningOfDay date
  let n := GetBeginningOfDay now
  let days := n.day - d.day
  if days > DaysInLastSixMonths then OutOfRange else days

/-- Models `CalculateWeekdayOffset`: the switch over `time.Now().Weekday()`
(Sunday = 0 … Saturday = 6, default 0). -/
def CalculateWeekdayOffset (now : GoTime) : Int :=
  let w := weekday now.day
  if w = 0 then 0
  else if w = 1 then 1
  else if w = 2 then 2
  else if w = 3 then 3
  else if w = 4 then 4
  else if w = 5 then 5
  else if w = 6 then 6
  else 0

/-! ## Grid-builder graph parameters (`calculateGraphParameters`) -/

/-- Computes `startDate := today.AddDate(0, -6, 0)`. -/
def startDateOf (now : GoTime) : Int :=
  addDate (GetBeginningOfDay now).day 0 (-6) 0

/-- Computes `startOfFirstWeek := startDate.AddDate(0, 0, -int(startDate.Weekday()))`. -/
def startOfFirstWeekOf (now : GoTime) : Int :=
  addDate (startDateOf now) 0 0 (-(weekday (startDateOf now)))

/-- Computes `todayWeek := WeeksInLastSixMonths - int(today.Sub(startOfFirstWeek).Hours() / (24*7))`;
the `int(...)` conversion truncates toward zero, hence `Int.tdiv`. -/
def todayWeekOf (now : GoTime) : Int :=
  26 - Int.tdiv ((GetBeginningOfDay now).day - startOfFirstWeekOf now) 7

/-- Models `calculateGraphParameters`: the `(startOfFirstWeek, todayWeek, maxWeek)`
triple; `colKeys` are the keys of the `cols` map. -/
def calculateGraphParameters (now : GoTime) (colKeys : List Int) :
    Int × Int × Int :=
  let maxWeek := colKeys.foldl (fun acc w => if w > acc then w else acc) 0
  (startOfFirstWeekOf now, todayWeekOf now,
    if maxWeek < WeeksInLastSixMonths then 26 else maxWeek)

/-- Per `printCellForPosition`, a cell is marked the cell as today exactly when
`weekNum == todayWeek && dayNum == CalculateWeekdayOffset()`. -/
def isTodayCell (now : GoTime) (weekNum dayNum : Int) : Bool :=
  weekNum == todayWeekOf now && dayNum == CalculateWeekdayOffset now

/-! ## Calendar Clock properties -/

/-- Lemma: `GetBeginningOfDay` keeps the day number and location and zeroes the
time of day (by the civil round-trip). -/
theorem getBeginningOfDay_eq (t : GoTime) :
    GetBeginningOfDay t = ⟨t.day, 0, t.loc⟩ := by
  simp only [GetBeginningOfDay]
  congr 1
  exact ofCivil_toCivil t.day

/-- Specification-side notion for C2: the number of midnight boundaries
crossed going from `d` forward to `now` (per the spec's words). -/
def dayBoundariesCrossed (d now : GoTime) : Int := now.day - d.day

/-- Truncating division by 7 hits 26 exactly on [182, 188]. -/
theorem tdiv_seven_eq_26 (x : Int) :
    Int.tdiv x 7 = 26 ↔ 182 ≤ x ∧ x ≤ 188 := by
  cases x with
  | ofNat n =>
    show Int.ofNat (n / 7) = 26 ↔ 182 ≤ Int.ofNat n ∧ Int.ofNat n ≤ 188
    simp only [Int.ofNat_eq_natCast]
    omega
  | negSucc n =>
    show -Int.ofNat ((n + 1) / 7) = 26 ↔ 182 ≤ Int.negSucc n ∧ Int.negSucc n ≤ 188
    simp only [Int.ofNat_eq_natCast, Int.negSucc_eq]
    omega

/-- C9: `GetBeginningOfDay` is idempotent, and its result has the same
calendar date (year, month, day) and location as the input, with the
time-of-day fields set to zero. -/
theorem C9_getBeginningOfDay_idempotent (t : GoTime) :
    GetBeginningOfDay (GetBeginningOfDay t) = GetBeginningOfDay t ∧
      toCivil (GetBeginningOfDay t).day = toCivil t.day ∧
      (GetBeginningOfDay t).sod = 0 ∧
      (GetBeginningOfDay t).loc = t.loc := by
  rw [getBeginningOfDay_eq t, getBeginningOfDay_eq ⟨t.day, 0, t.loc⟩]
  exact ⟨rfl, rfl, rfl, rfl⟩

/-- C2: for every `d ≤ now`, `CountDaysSinceDate` returns the count of
day boundaries crossed whenever that count is at most 183 (in particular
0 when `d` falls on the same calendar day as `now`), and returns the
`OutOfRange` sentinel exactly when `d` lies more than 183 days before
`now`. -/
theorem C2_countDaysSinceDate_spec (now d : GoTime) (h : timeLE d now) :
    (dayBoundariesCrossed d now ≤ 183 →
      CountDaysSinceDate now d = dayBoundariesCrossed d now) ∧
    (d.day = now.day → CountDaysSinceDate now d = 0) ∧
    (CountDaysSinceDate now d = OutOfRange ↔ 183 < dayBoundariesCrossed d now) := by
  have e : CountDaysSinceDate now d =
      if now.day - d.day > 183 then 99999 else now.day - d.day := by
    simp only [CountDaysSinceDate, getBeginningOfDay_eq, DaysInLastSixMonths, OutOfRange]
  have hle : d.day ≤ now.day := by
    rcases h with h | ⟨h, _⟩ <;> omega
  rw [e]
  unfold dayBoundariesCrossed OutOfRange
  split_ifs <;> refine ⟨by omega, by omega, by constructor <;> omega⟩

/-- Concrete instantiation of `C2_countDaysSinceDate_spec`. -/
theorem C2_countDaysSinceDate_spec_witness :
    CountDaysSinceDate ⟨12, 0, "Local"⟩ ⟨10, 5, "Local"⟩ = 2 ∧
      CountDaysSinceDate ⟨12, 0, "Local"⟩ ⟨12, 0, "Local"⟩ = 0 := by
  refine ⟨?_, ?_⟩
  · have := (C2_countDaysSinceDate_spec ⟨12, 0, "Local"⟩ ⟨10, 5, "Local"⟩
      (by left; decide)).1 (by decide)
    simpa [dayBoundariesCrossed] using this
  · have := (C2_countDaysSinceDate_spec ⟨12, 0, "Local"⟩ ⟨12, 0, "Local"⟩
      (by right; exact ⟨rfl, le_refl _⟩)).2.1 rfl
    exact this

/-- C1 counterexample: for `now` = 2027-08-28 the `todayWeek` component
of `calculateGraphParameters` is 1, not 0 (Feb 28, six calendar months
earlier, is a Sunday, so only 181 + 0 days separate the preceding Sunday
from today and `int(181/7) = 25`). -/
theorem C1_todayWeek_not_always_zero :
    (calculateGraphParameters ⟨ofCivil 2027 8 28, 0, "Local"⟩ []).2.1 = 1 ∧
      ¬ (calculateGraphParameters ⟨ofCivil 2027 8 28, 0, "Local"⟩ []).2.1 = 0 := by
  decide

/-- C1 (amended): the `todayWeek` value computed by
`calculateGraphParameters` equals `WeeksInLastSixMonths` minus the
truncated quotient of the whole-day distance from the Sunday preceding
`today - 6 months` to today, and it is 0 exactly when that distance lies
in [182, 188] — not for every `now`. -/
theorem C1_todayWeek_zero_iff (now : GoTime) (colKeys : List Int) :
    (calculateGraphParameters now colKeys).2.1 = todayWeekOf now ∧
    (todayWeekOf now = 0 ↔
      182 ≤ (GetBeginningOfDay now).day - startOfFirstWeekOf now ∧
        (GetBeginningOfDay now).day - startOfFirstWeekOf now ≤ 188) := by
  refine ⟨rfl, ?_⟩
  unfold todayWeekOf
  constructor
  · intro h
    exact (tdiv_seven_eq_26 _).mp (by omega)
  · intro h
    have := (tdiv_seven_eq_26 _).mpr h
    omega

/-! ## Commit Aggregator (`GetCommitsFromRepo`, `ProcessRepositories`)

The go-git collaborator is modelled at its interface: a repository either
yields the ordered commit list reachable from HEAD or fails at one of
the three fallible steps (`PlainOpen`, `Head`, `Log`).  The Go
`map[int]int` is modelled extensionally as `Int → Option Nat` (`none` =
key absent), matching Go map lookup/update semantics. -/

/-- A commit as surfaced by the commit-log collaborator: author email
and author timestamp. -/
structure Commit where
  email : String
  date : GoTime
deriving DecidableEq, Repr

/-- The `map[int]int` commit-count map. -/
def CMap : Type := Int → Option Nat

/-- Models `commits[daysAgo]++`: a missing key reads as zero, and the
incremented value is stored under the key. -/
def mincr (m : CMap) (k : Int) : CMap :=
  fun q => if q = k then some ((m k).getD 0 + 1) else m q

/-- The body of the `iterator.ForEach` callback in `GetCommitsFromRepo`:
skip when a non-empty email filter does not match exactly, otherwise
count the commit unless its bucket is out of range. -/
def stepCommit (email : String) (now : GoTime) (m : CMap) (c : Commit) : CMap :=
  if email != "" && c.email != email then m
  else
    let daysAgo := CountDaysSinceDate now c.date
    if daysAgo != OutOfRange then mincr m daysAgo else m

/-- A repository as seen through go-git. -/
inductive Repo where
  | ok (commits : List Commit)
  | openErr (msg : String)
  | headErr (msg : String)
  | logErr (msg : String)

/-- Models `GetCommitsFromRepo`: open the repository, resolve HEAD, walk the
log, and fold the counting callback over the commits.  Go returns
`(nil, err)` on failure; the `Except` error carries the same message. -/
def GetCommitsFromRepo (email path : String) (now : GoTime) (r : Repo)
    (commits : CMap) : Except String CMap :=
  match r with
  | .openErr e => .error ("failed to open repository at " ++ path ++ ": " ++ e)
  | .headErr e => .error ("failed to get HEAD reference: " ++ e)
  | .logErr e => .error ("failed to get commit log: " ++ e)
  | .ok cs => .ok (cs.foldl (stepCommit email now) commits)

/-- The keys written by the initialization loop of `ProcessRepositories`:
`for i := DaysInLastSixMonths; i > 0; i--`. -/
def initDays : List Int := (List.range 183).map (fun i : Nat => (183 : Int) - (i : Int))

/-- The pre-populated count map: zero for every key in `initDays`. -/
def initCommits : CMap :=
  initDays.foldl (fun m i => fun q => if q = i then some 0 else m q) (fun _ => none)

/-- Models `ProcessRepositories` (current single-repository version):
initialize the map, process the one repository, wrap any error with the
offending directory. -/
def ProcessRepositories (email directory : String) (now : GoTime) (r : Repo) :
    Except String CMap :=
  match GetCommitsFromRepo email directory now r initCommits with
  | .error e => .error ("error processing repository at " ++ directory ++ ": " ++ e)
  | .ok m => .ok m

/-- The multi-repository aggregation loop of the legacy
`ProcessRepositories` (pkg/stats/stats.go): fold `GetCommitsFromRepo`
over the listed repositories with one shared count map, aborting on the
first error. -/
def processRepoList (email : String) (now : GoTime)
    (repos : List (String × Repo)) (m : CMap) : Except String CMap :=
  match repos with
  | [] => .ok m
  | (path, r) :: rest =>
    match GetCommitsFromRepo email path now r m with
    | .error e => .error ("error processing repository " ++ path ++ ": " ++ e)
    | .ok m' => processRepoList email now rest m'

/-- Outcome of `commands.Stats`: either `stats.PrintCommitsStats` was
invoked with the aggregated map, or the error was returned to the
caller and nothing was rendered. -/
inductive StatsOutcome where
  | rendered (m : CMap) (showCommitCount showDaysOfMonth : Bool)
  | errored (msg : String)

/-- Models `commands.Stats`: aggregate, return the error if any, otherwise
render. -/
def Stats (email directory : String) (showCommitCount showDaysOfMonth : Bool)
    (now : GoTime) (r : Repo) : StatsOutcome :=
  match ProcessRepositories email directory now r with
  | .error e => .errored e
  | .ok m => .rendered m showCommitCount showDaysOfMonth

/-! ## `cmd/stats.go` flag handling -/

/-- Observable outcome of one `git-contrib stats` invocation. -/
structure CmdOutcome where
  stdoutLines : List String
  stderrLines : List String
  exitCode : Nat
  graphPrinted : Bool
deriving DecidableEq, Repr

/-- The flag-conflict check at the top of `statsCmd.Run`: when both `-c`
and `-d` are set it prints the error with `fmt.Println` (standard
output) and returns; `Run` reports no error to cobra, so the process
exits with status 0.  Otherwise the invocation continues with outcome
`rest`. -/
def statsCmdRun (showCommitCountFlag showDaysOfMonthFlag : Bool)
    (rest : CmdOutcome) : CmdOutcome :=
  if showCommitCountFlag && showDaysOfMonthFlag then
    { stdoutLines := ["Error: The -c (count) and -d (days) flags cannot be used together"],
      stderrLines := [], exitCode := 0, graphPrinted := false }
  else rest

/-! ## Aggregator and command-layer claims -/

/-- The counting callback, characterized with propositional equality in
place of the Go boolean guard. -/
theorem stepCommit_eq (email : String) (now : GoTime) (m : CMap) (c : Commit) :
    stepCommit email now m c =
      if email = "" ∨ c.email = email then
        (if CountDaysSinceDate now c.date ≠ OutOfRange
         then mincr m (CountDaysSinceDate now c.date) else m)
      else m := by
  simp only [stepCommit, bne_iff_ne, ne_eq, Bool.and_eq_true, decide_eq_true_eq]
  by_cases h1 : email = ""
  · subst h1
    simp
  · by_cases h2 : c.email = email
    · simp [h1, h2]
    · simp [h1, h2]

/-- C3: the aggregator's email filter is exact-match and case-sensitive,
and an empty filter matches everything — a commit is counted exactly
when the filter is empty or the author email is byte-for-byte equal to
it; in particular a commit by `a@x.com` is skipped entirely when
filtering for `A@x.com`. -/
theorem C3_email_filter_exact (email : String) (now : GoTime) (m : CMap)
    (c : Commit) :
    (stepCommit email now m c =
      if email = "" ∨ c.email = email then
        (if CountDaysSinceDate now c.date ≠ OutOfRange
         then mincr m (CountDaysSinceDate now c.date) else m)
      else m) ∧
    (stepCommit "" now m c =
      (if CountDaysSinceDate now c.date ≠ OutOfRange
       then mincr m (CountDaysSinceDate now c.date) else m)) ∧
    (stepCommit "A@x.com" now m { email := "a@x.com", date := c.date } = m) := by
  refine ⟨stepCommit_eq email now m c, ?_, ?_⟩
  · rw [stepCommit_eq]
    rw [if_pos (Or.inl rfl)]
  · rw [stepCommit_eq]
    apply if_neg
    rintro (h | h)
    · exact absurd h (by decide)
    · exact absurd (show ("a@x.com" : String) = "A@x.com" from h) (by decide)

/-- C10: a commit whose author timestamp falls on a calendar day
strictly after today gets a negative `CountDaysSinceDate` (not the
sentinel), and the counting callback of `GetCommitsFromRepo` counts it
under that negative bucket key rather than discarding or clamping it. -/
theorem C10_future_commit_negative_bucket (email : String) (now : GoTime)
    (m : CMap) (c : Commit)
    (hpass : email = "" ∨ c.email = email)
    (hfut : now.day < c.date.day) :
    CountDaysSinceDate now c.date < 0 ∧
      CountDaysSinceDate now c.date ≠ OutOfRange ∧
      stepCommit email now m c (CountDaysSinceDate now c.date) =
        some ((m (CountDaysSinceDate now c.date)).getD 0 + 1) := by
  have e : CountDaysSinceDate now c.date = now.day - c.date.day := by
    simp only [CountDaysSinceDate, getBeginningOfDay_eq, DaysInLastSixMonths, OutOfRange]
    rw [if_neg (by omega)]
  have hneg : CountDaysSinceDate now c.date < 0 := by omega
  have hnoor : CountDaysSinceDate now c.date ≠ OutOfRange := by
    unfold OutOfRange
    omega
  refine ⟨hneg, hnoor, ?_⟩
  have hstep : stepCommit email now m c = mincr m (CountDaysSinceDate now c.date) := by
    rw [stepCommit_eq, if_pos hpass, if_pos hnoor]
  rw [hstep]
  simp [mincr]

/-- Concrete instantiation of `C10_future_commit_negative_bucket`: a
commit dated tomorrow lands in bucket -1. -/
theorem C10_future_commit_negative_bucket_witness :
    CountDaysSinceDate ⟨0, 0, "Local"⟩ ⟨1, 0, "Local"⟩ < 0 ∧
      CountDaysSinceDate ⟨0, 0, "Local"⟩ ⟨1, 0, "Local"⟩ ≠ OutOfRange ∧
      stepCommit "" ⟨0, 0, "Local"⟩ (fun _ => none) ⟨"dev@x.com", ⟨1, 0, "Local"⟩⟩
        (CountDaysSinceDate ⟨0, 0, "Local"⟩ ⟨1, 0, "Local"⟩) = some 1 :=
  C10_future_commit_negative_bucket "" ⟨0, 0, "Local"⟩ (fun _ => none)
    ⟨"dev@x.com", ⟨1, 0, "Local"⟩⟩ (Or.inl rfl) (by decide)

/-- C4 counterexample: with both display toggles set, nothing is written
to standard error and the exit status is 0 — contradicting the claimed
standard-error message and non-zero termination (no graph is printed,
which is the part of the claim that does hold). -/
theorem C4_both_flags_not_stderr_nonzero :
    (statsCmdRun true true ⟨[], [], 0, true⟩).stderrLines = [] ∧
      (statsCmdRun true true ⟨[], [], 0, true⟩).exitCode = 0 ∧
      (statsCmdRun true true ⟨[], [], 0, true⟩).graphPrinted = false ∧
      (statsCmdRun true true ⟨[], [], 0, true⟩).stdoutLines ≠ [] := by
  decide

/-- C4 (amended): when both `--count` and `--days` are set, the run
reports the usage error on standard output, prints no graph, and the
process terminates with exit status 0. -/
theorem C4_both_flags_usage_error (rest : CmdOutcome) :
    statsCmdRun true true rest =
      { stdoutLines := ["Error: The -c (count) and -d (days) flags cannot be used together"],
        stderrLines := [], exitCode := 0, graphPrinted := false } := rfl

/-- C5: on any repository-access failure, `ProcessRepositories` returns
the error (and no map) wrapped with the offending path, and
`commands.Stats` forwards the error without invoking the renderer; the
renderer runs only when aggregation returned without error. -/
theorem C5_repo_error_aborts (email dir : String) (sc sd : Bool)
    (now : GoTime) (e : String) :
    (ProcessRepositories email dir now (.openErr e) =
        .error ("error processing repository at " ++ dir ++ ": " ++
          ("failed to open repository at " ++ dir ++ ": " ++ e))) ∧
    (ProcessRepositories email dir now (.headErr e) =
        .error ("error processing repository at " ++ dir ++ ": " ++
          ("failed to get HEAD reference: " ++ e))) ∧
    (ProcessRepositories email dir now (.logErr e) =
        .error ("error processing repository at " ++ dir ++ ": " ++
          ("failed to get commit log: " ++ e))) ∧
    (∀ (r : Repo) (msg : String),
      ProcessRepositories email dir now r = .error msg →
        Stats email dir sc sd now r = .errored msg) := by
  refine ⟨rfl, rfl, rfl, ?_⟩
  intro r msg h
  simp only [Stats, h]

/-- Concrete instantiation of `C5_repo_error_aborts`: a failed open is
surfaced by `Stats` as an error naming the path, with no rendering. -/
theorem C5_repo_error_aborts_witness :
    Stats "" "/tmp/repo" false false ⟨0, 0, "Local"⟩ (.openErr "no .git") =
      .errored ("error processing repository at /tmp/repo: " ++
        ("failed to open repository at /tmp/repo: " ++ "no .git")) :=
  (C5_repo_error_aborts "" "/tmp/repo" false false ⟨0, 0, "Local"⟩ "no .git").2.2.2
    (.openErr "no .git") _
    (C5_repo_error_aborts "" "/tmp/repo" false false ⟨0, 0, "Local"⟩ "no .git").1

/-! ## Count-map invariants and commutativity -/

/-- Lookup after the zero-writing loop: a listed key reads zero, any
other key is untouched. -/
theorem setZero_foldl (ws : List Int) (m : CMap) (k : Int) :
    (ws.foldl (fun m i => fun q => if q = i then some 0 else m q) m) k =
      if k ∈ ws then some 0 else m k := by
  induction ws generalizing m with
  | nil => simp
  | cons w ws ih =>
    simp only [List.foldl_cons, ih, List.mem_cons]
    by_cases h1 : k ∈ ws
    · rw [if_pos h1, if_pos (Or.inr h1)]
    · rw [if_neg h1]
      by_cases h2 : k = w
      · rw [if_pos h2, if_pos (Or.inl h2)]
      · rw [if_neg h2, if_neg (by tauto)]

theorem mem_initDays (k : Int) : k ∈ initDays ↔ 1 ≤ k ∧ k ≤ 183 := by
  unfold initDays
  rw [List.mem_map]
  constructor
  · rintro ⟨i, hi, he⟩
    rw [List.mem_range] at hi
    omega
  · intro h
    refine ⟨(183 - k).toNat, ?_, ?_⟩
    · rw [List.mem_range]
      omega
    · omega

/-- Lookup in the freshly initialized count map. -/
theorem initCommits_eq (k : Int) :
    initCommits k = if 1 ≤ k ∧ k ≤ 183 then some 0 else none := by
  have h := setZero_foldl initDays (fun _ => none) k
  by_cases hk : 1 ≤ k ∧ k ≤ 183
  · rw [if_pos hk]
    rw [if_pos ((mem_initDays k).mpr hk)] at h
    exact h
  · rw [if_neg hk]
    rw [if_neg (fun hm => hk ((mem_initDays k).mp hm))] at h
    exact h

/-- One counting step never removes a present key. -/
theorem stepCommit_mono (email : String) (now : GoTime) (m : CMap) (c : Commit)
    (k : Int) (h : (m k).isSome) : ((stepCommit email now m c) k).isSome := by
  rw [stepCommit_eq]
  split_ifs with h1 h2
  · simp only [mincr]
    split_ifs with h3
    · simp
    · exact h
  · exact h
  · exact h

/-- The whole aggregation fold never removes a present key. -/
theorem foldl_stepCommit_mono (email : String) (now : GoTime)
    (cs : List Commit) (m : CMap) (k : Int) (h : (m k).isSome) :
    ((cs.foldl (stepCommit email now) m) k).isSome := by
  induction cs generalizing m with
  | nil => exact h
  | cons c cs ih => exact ih _ (stepCommit_mono email now m c k h)

/-- A key present after the aggregation fold was present before or was
written by a counted commit with that bucket. -/
theorem foldl_stepCommit_isSome (email : String) (now : GoTime)
    (cs : List Commit) (m : CMap) (k : Int)
    (h : ((cs.foldl (stepCommit email now) m) k).isSome) :
    (m k).isSome ∨ ∃ c ∈ cs, (email = "" ∨ c.email = email) ∧
      CountDaysSinceDate now c.date = k := by
  induction cs generalizing m with
  | nil => exact Or.inl h
  | cons c cs ih =>
    rcases ih _ h with h' | ⟨c', hc', hp⟩
    · rw [stepCommit_eq] at h'
      by_cases h1 : email = "" ∨ c.email = email
      · rw [if_pos h1] at h'
        by_cases h2 : CountDaysSinceDate now c.date ≠ OutOfRange
        · rw [if_pos h2] at h'
          simp only [mincr] at h'
          by_cases h3 : k = CountDaysSinceDate now c.date
          · exact Or.inr ⟨c, List.mem_cons_self c cs, h1, h3.symm⟩
          · rw [if_neg h3] at h'
            exact Or.inl h'
        · rw [if_neg h2] at h'
          exact Or.inl h'
      · rw [if_neg h1] at h'
        exact Or.inl h'
    · exact Or.inr ⟨c', List.mem_cons_of_mem c hc', hp⟩

/-- C6: before aggregation the count map holds zero exactly for the keys
1..183 (and no others); aggregation never removes a pre-populated key;
and key 0 is present after aggregation only if some counted commit falls
on today's calendar day. -/
theorem C6_init_map_invariant (email : String) (now : GoTime) (cs : List Commit) :
    (∀ k : Int, initCommits k = if 1 ≤ k ∧ k ≤ 183 then some 0 else none) ∧
    (∀ k : Int, (initCommits k).isSome →
      ((cs.foldl (stepCommit email now) initCommits) k).isSome) ∧
    (((cs.foldl (stepCommit email now) initCommits) 0).isSome →
      ∃ c ∈ cs, (email = "" ∨ c.email = email) ∧ c.date.day = now.day) := by
  refine ⟨initCommits_eq, fun k h => foldl_stepCommit_mono email now cs _ k h, ?_⟩
  intro h
  rcases foldl_stepCommit_isSome email now cs _ 0 h with h' | ⟨c, hc, hp, hz⟩
  · rw [initCommits_eq] at h'
    simp at h'
  · refine ⟨c, hc, hp, ?_⟩
    have e : CountDaysSinceDate now c.date =
        if now.day - c.date.day > 183 then 99999 else now.day - c.date.day := by
      simp only [CountDaysSinceDate, getBeginningOfDay_eq, DaysInLastSixMonths, OutOfRange]
    rw [e] at hz
    split_ifs at hz <;> omega

/-- Concrete instantiation of `C6_init_map_invariant`: a pre-populated
key survives aggregation, and a commit on day 0 is the only way key 0
appears. -/
theorem C6_init_map_invariant_witness :
    (([⟨"dev@x.com", ⟨0, 30, "Local"⟩⟩] : List Commit).foldl
        (stepCommit "" ⟨0, 0, "Local"⟩) initCommits 5).isSome ∧
      ∃ c ∈ ([⟨"dev@x.com", ⟨0, 30, "Local"⟩⟩] : List Commit),
        (("" : String) = "" ∨ c.email = "") ∧ c.date.day = (0 : Int) := by
  constructor
  · exact (C6_init_map_invariant "" ⟨0, 0, "Local"⟩
      [⟨"dev@x.com", ⟨0, 30, "Local"⟩⟩]).2.1 5 (by decide)
  · exact (C6_init_map_invariant "" ⟨0, 0, "Local"⟩
      [⟨"dev@x.com", ⟨0, 30, "Local"⟩⟩]).2.2 (by decide)

/-- Decidable test for "this commit is counted into bucket `k`". -/
def countsAt (email : String) (now : GoTime) (k : Int) (c : Commit) : Bool :=
  decide ((email = "" ∨ c.email = email) ∧
    CountDaysSinceDate now c.date ≠ OutOfRange ∧ CountDaysSinceDate now c.date = k)

/-- Adding `n` hits to an optional counter: absent keys stay absent when
nothing is added, otherwise the key holds its old value (default 0) plus
`n`. -/
def addHits (o : Option Nat) (n : Nat) : Option Nat :=
  if n = 0 then o else some (o.getD 0 + n)

theorem addHits_succ (o : Option Nat) (n : Nat) :
    addHits (some (o.getD 0 + 1)) n = addHits o (n + 1) := by
  unfold addHits
  split_ifs with h1 h2 <;> simp_all <;> omega

/-- Per-key characterization of the aggregation fold: the final value at
`k` is the initial value plus the number of commits counted into `k`. -/
theorem foldl_stepCommit_lookup (email : String) (now : GoTime)
    (cs : List Commit) (m : CMap) (k : Int) :
    (cs.foldl (stepCommit email now) m) k =
      addHits (m k) (cs.countP (countsAt email now k)) := by
  induction cs generalizing m with
  | nil => simp [addHits]
  | cons c cs ih =>
    rw [List.foldl_cons, ih, List.countP_cons, stepCommit_eq]
    by_cases h1 : email = "" ∨ c.email = email
    · rw [if_pos h1]
      by_cases h2 : CountDaysSinceDate now c.date ≠ OutOfRange
      · rw [if_pos h2]
        by_cases h3 : CountDaysSinceDate now c.date = k
        · have hcA : countsAt email now k c = true := by
            simp only [countsAt, decide_eq_true_eq]
            exact ⟨h1, h2, h3⟩
          have hmin : mincr m (CountDaysSinceDate now c.date) k =
              some ((m k).getD 0 + 1) := by
            simp [mincr, h3]
          rw [hcA, hmin, if_pos rfl]
          exact addHits_succ (m k) _
        · have hcA : countsAt email now k c = false := by
            simp only [countsAt, decide_eq_false_iff_not]
            tauto
          have hmin : mincr m (CountDaysSinceDate now c.date) k = m k := by
            simp only [mincr]
            rw [if_neg (fun hk => h3 hk.symm)]
          rw [hcA, hmin]
          simp
      · have hcA : countsAt email now k c = false := by
          simp only [countsAt, decide_eq_false_iff_not]
          tauto
        rw [if_neg h2, hcA]
        simp
    · have hcA : countsAt email now k c = false := by
        simp only [countsAt, decide_eq_false_iff_not]
        tauto
      rw [if_neg h1, hcA]
      simp

theorem addHits_comm (o : Option Nat) (a b : Nat) :
    addHits (addHits o a) b = addHits (addHits o b) a := by
  by_cases ha : a = 0 <;> by_cases hb : b = 0 <;>
    simp [addHits, ha, hb] <;> omega

/-- C8: aggregating two successfully-read repositories in either order
(the legacy multi-repository loop of `ProcessRepositories` folding
`GetCommitsFromRepo`, starting from the initialized count map) produces
the same count map. -/
theorem C8_aggregation_commutes (email : String) (now : GoTime)
    (pA pB : String) (csA csB : List Commit) :
    processRepoList email now [(pA, .ok csA), (pB, .ok csB)] initCommits =
      processRepoList email now [(pB, .ok csB), (pA, .ok csA)] initCommits := by
  simp only [processRepoList, GetCommitsFromRepo]
  congr 1
  funext k
  rw [foldl_stepCommit_lookup, foldl_stepCommit_lookup,
    foldl_stepCommit_lookup, foldl_stepCommit_lookup]
  exact addHits_comm (initCommits k) _ _

/-! ## Month-label header (`PrintMonths`) -/

/-- Go `Month().String()[:3]` for months 1..12. -/
def monthAbbrev (m : Nat) : String :=
  if m = 1 then "Jan"
  else if m = 2 then "Feb"
  else if m = 3 then "Mar"
  else if m = 4 then "Apr"
  else if m = 5 then "May"
  else if m = 6 then "Jun"
  else if m = 7 then "Jul"
  else if m = 8 then "Aug"
  else if m = 9 then "Sep"
  else if m = 10 then "Oct"
  else if m = 11 then "Nov"
  else "Dec"

/-- Go `t.Day()`. -/
def dayOfMonth (z : Int) : Nat := (toCivil z).2.2

/-- Go `t.Month()`. -/
def monthOf (z : Int) : Nat := (toCivil z).2.1

/-- Computes `startDate := GetBeginningOfDay(time.Now()).AddDate(0, -6, 0)` as
recomputed inside `PrintMonths`. -/
def printMonthsStartDate (now : GoTime) : Int :=
  addDate (GetBeginningOfDay now).day 0 (-6) 0

/-- Computes `startOfWeek := startDate.AddDate(0, 0, -daysToSunday)`. -/
def printMonthsStartOfWeek (now : GoTime) : Int :=
  addDate (printMonthsStartDate now) 0 0 (-(weekday (printMonthsStartDate now)))

/-- Date of the header cell:
`startOfWeek.AddDate(0, 0, (WeeksInLastSixMonths-weekNum)*7 + dayInWeek)`. -/
def monthsCellDate (sow : Int) (weekNum dayInWeek : Nat) : Int :=
  addDate sow 0 0 (((26 : Int) - (weekNum : Int)) * 7 + (dayInWeek : Int))

/-- The inner scan of the label-collection loop: the first weekday of
`weekNum` whose date is the 1st of a month (the loop `break`s after the
first hit). -/
def firstOfMonthInWeek (sow : Int) (weekNum : Nat) : Option Nat :=
  (List.range 7).find? (fun i => dayOfMonth (monthsCellDate sow weekNum i) == 1)

/-- One iteration of the label-collection loop: when the week contains a
1st and is not the oldest week (`weekNum < WeeksInLastSixMonths`), store
the month's abbreviation under key `weekNum + 1`. -/
def monthLabelsStep (sow : Int) (lbl : Nat → Option String) (weekNum : Nat) :
    Nat → Option String :=
  match firstOfMonthInWeek sow weekNum with
  | some i =>
    if weekNum < 26 then
      fun q => if q = weekNum + 1
        then some (monthAbbrev (monthOf (monthsCellDate sow weekNum i)))
        else lbl q
    else lbl
  | none => lbl

/-- Week indices in loop order, `26, 25, …, 0`. -/
def weeksDescending : List Nat := (List.range 27).map (fun i => 26 - i)

/-- The `monthLabels` map after the collection loop. -/
def monthLabels (sow : Int) : Nat → Option String :=
  weeksDescending.foldl (monthLabelsStep sow) (fun _ => none)

/-- Models `PrintMonths`: the sequence of strings printed — the initial gutter
spacing, one 4-character group per week index from 26 down to 0 (label
plus one space, or four blanks), one trailing blank group for the
current week, and the final newline. -/
def PrintMonths (now : GoTime) : List String :=
  "         " ::
    (weeksDescending.map (fun w =>
      match monthLabels (printMonthsStartOfWeek now) w with
      | some l => l ++ " "
      | none => "    ")) ++ ["    ", "\n"]

/-- The month header as the claim states it: the label appears in the
column of exactly the week that contains the 1st calendar day of the
month. -/
def printMonthsSpec (now : GoTime) : List String :=
  "         " ::
    (weeksDescending.map (fun w =>
      match firstOfMonthInWeek (printMonthsStartOfWeek now) w with
      | some i =>
        monthAbbrev (monthOf (monthsCellDate (printMonthsStartOfWeek now) w i)) ++ " "
      | none => "    ")) ++ ["    ", "\n"]

/-- The month header as the code actually lays it out: the label of a
month whose 1st falls in week `w - 1` is printed in column `w`, one
column to the left of (older than) that week; a 1st falling in the
oldest week (26) produces no label. -/
def printMonthsAmended (now : GoTime) : List String :=
  "         " ::
    (weeksDescending.map (fun w =>
      if 1 ≤ w then
        match firstOfMonthInWeek (printMonthsStartOfWeek now) (w - 1) with
        | some i =>
          monthAbbrev (monthOf (monthsCellDate (printMonthsStartOfWeek now) (w - 1) i)) ++ " "
        | none => "    "
      else "    ")) ++ ["    ", "\n"]

theorem mem_weeksDescending (w : Nat) : w ∈ weeksDescending ↔ w ≤ 26 := by
  unfold weeksDescending
  rw [List.mem_map]
  constructor
  · rintro ⟨i, hi, he⟩
    rw [List.mem_range] at hi
    omega
  · intro h
    refine ⟨26 - w, ?_, ?_⟩
    · rw [List.mem_range]
      omega
    · omega

/-- Unfolding of one collection step when the week contains a 1st. -/
theorem monthLabelsStep_some (sow : Int) (lbl : Nat → Option String)
    (weekNum i : Nat) (hi : firstOfMonthInWeek sow weekNum = some i) :
    monthLabelsStep sow lbl weekNum =
      if weekNum < 26 then
        (fun q => if q = weekNum + 1
          then some (monthAbbrev (monthOf (monthsCellDate sow weekNum i)))
          else lbl q)
      else lbl := by
  unfold monthLabelsStep
  rw [hi]

/-- Unfolding of one collection step when the week has no 1st. -/
theorem monthLabelsStep_none (sow : Int) (lbl : Nat → Option String)
    (weekNum : Nat) (h : firstOfMonthInWeek sow weekNum = none) :
    monthLabelsStep sow lbl weekNum = lbl := by
  unfold monthLabelsStep
  rw [h]

/-- Lookup characterization of the label-collection fold. -/
theorem monthLabels_foldl (sow : Int) (ws : List Nat)
    (lbl : Nat → Option String) (k : Nat) :
    (ws.foldl (monthLabelsStep sow) lbl) k =
      if ∃ w ∈ ws, w < 26 ∧ w + 1 = k ∧ (firstOfMonthInWeek sow w).isSome
      then (firstOfMonthInWeek sow (k - 1)).map
        (fun i => monthAbbrev (monthOf (monthsCellDate sow (k - 1) i)))
      else lbl k := by
  induction ws generalizing lbl with
  | nil => simp
  | cons w ws ih =>
    rw [List.foldl_cons, ih]
    by_cases hex : ∃ w' ∈ ws, w' < 26 ∧ w' + 1 = k ∧ (firstOfMonthInWeek sow w').isSome
    · have hex' : ∃ w' ∈ w :: ws, w' < 26 ∧ w' + 1 = k ∧
          (firstOfMonthInWeek sow w').isSome := by
        obtain ⟨w', hw', hrest⟩ := hex
        exact ⟨w', List.mem_cons_of_mem w hw', hrest⟩
      rw [if_pos hex, if_pos hex']
    · rw [if_neg hex]
      by_cases hw : w < 26 ∧ w + 1 = k ∧ (firstOfMonthInWeek sow w).isSome
      · obtain ⟨h26, hk, hsome⟩ := hw
        rw [if_pos ⟨w, List.mem_cons_self w ws, h26, hk, hsome⟩]
        obtain ⟨i, hi⟩ := Option.isSome_iff_exists.mp hsome
        rw [monthLabelsStep_some sow lbl w i hi, if_pos h26]
        have hkw : k - 1 = w := by omega
        rw [hkw, hi]
        simp only [Option.map_some']
        rw [if_pos hk.symm]
      · have hnex : ¬ ∃ w' ∈ w :: ws, w' < 26 ∧ w' + 1 = k ∧
            (firstOfMonthInWeek sow w').isSome := by
          rintro ⟨w', hw', hrest⟩
          rcases List.mem_cons.mp hw' with rfl | hmem
          · exact hw hrest
          · exact hex ⟨w', hmem, hrest⟩
        rw [if_neg hnex]
        cases hfind : firstOfMonthInWeek sow w with
        | none => rw [monthLabelsStep_none sow lbl w hfind]
        | some i =>
          rw [monthLabelsStep_some sow lbl w i hfind]
          by_cases h26 : w < 26
          · rw [if_pos h26]
            have hk : ¬ k = w + 1 := by
              intro hk
              exact hw ⟨h26, hk.symm, by rw [hfind]; rfl⟩
            rw [if_neg hk]
          · rw [if_neg h26]

/-- C7 counterexample, at `now` = 2024-07-10 (start of week
2024-01-07): the cell of week 1, weekday 1 is Jul 1 2024, so week 1 is
the week containing the 1st and the inner scan finds it there; yet the
label map holds "Jul" under column 2 and nothing under column 1, and
the header printed by `PrintMonths` differs from the spec-mandated
layout that puts each month's abbreviation in the column of exactly the
week containing the 1st. -/
theorem C7_month_header_not_spec :
    monthsCellDate (printMonthsStartOfWeek ⟨ofCivil 2024 7 10, 0, "Local"⟩) 1 1 =
        ofCivil 2024 7 1 ∧
      firstOfMonthInWeek (printMonthsStartOfWeek ⟨ofCivil 2024 7 10, 0, "Local"⟩) 1 =
        some 1 ∧
      monthLabels (printMonthsStartOfWeek ⟨ofCivil 2024 7 10, 0, "Local"⟩) 2 =
        some "Jul" ∧
      monthLabels (printMonthsStartOfWeek ⟨ofCivil 2024 7 10, 0, "Local"⟩) 1 =
        none ∧
      PrintMonths ⟨ofCivil 2024 7 10, 0, "Local"⟩ ≠
        printMonthsSpec ⟨ofCivil 2024 7 10, 0, "Local"⟩ := by
  decide

/-- C7 (amended): for week indices from 26 down to 0 (a fixed range,
independent of `maxWeek`), the month's 3-letter abbreviation is printed
in the column one week older than the week containing the 1st calendar
day of the month (no label when the 1st falls in the oldest week 26),
4 blank spaces otherwise, with one trailing blank group appended for the
current-week column. -/
theorem C7_month_header_shifted (now : GoTime) :
    PrintMonths now = printMonthsAmended now := by
  unfold PrintMonths printMonthsAmended
  congr 1
  congr 1
  apply List.map_congr_left
  intro w hw
  have hw26 : w ≤ 26 := (mem_weeksDescending w).mp hw
  unfold monthLabels
  rw [monthLabels_foldl]
  by_cases h1 : 1 ≤ w
  · rw [if_pos h1]
    by_cases hsome : (firstOfMonthInWeek (printMonthsStartOfWeek now) (w - 1)).isSome
    · have hex : ∃ w' ∈ weeksDescending, w' < 26 ∧ w' + 1 = w ∧
          (firstOfMonthInWeek (printMonthsStartOfWeek now) w').isSome :=
        ⟨w - 1, (mem_weeksDescending (w - 1)).mpr (by omega), by omega, by omega, hsome⟩
      rw [if_pos hex]
      obtain ⟨i, hi⟩ := Option.isSome_iff_exists.mp hsome
      rw [hi]
      simp only [Option.map_some']
    · have hnex : ¬ ∃ w' ∈ weeksDescending, w' < 26 ∧ w' + 1 = w ∧
          (firstOfMonthInWeek (printMonthsStartOfWeek now) w').isSome := by
        rintro ⟨w', hw', h26, hk, hs⟩
        have he : w' = w - 1 := by omega
        rw [he] at hs
        exact hsome hs
      rw [if_neg hnex]
      have hnone : firstOfMonthInWeek (printMonthsStartOfWeek now) (w - 1) = none :=
        Option.not_isSome_iff_eq_none.mp hsome
      rw [hnone]
  · have hnex : ¬ ∃ w' ∈ weeksDescending, w' < 26 ∧ w' + 1 = w ∧
        (firstOfMonthInWeek (printMonthsStartOfWeek now) w').isSome := by
      rintro ⟨w', hw', h26, hk, hs⟩
      omega
    rw [if_neg h1, if_neg hnex]

end GitContrib
